import Mathlib

/-!
Shallow embedding of the quote-fetch orchestrator of `price_fetcher.py`
(repository macrohuang/invest-log).

Modelling conventions:
* Python `float` prices and `time.monotonic()` timestamps are modelled as `ℤ`.
* Python `dict`s (`_PRICE_CACHE`, `_SERVICE_STATE`) are association lists
  `List (String × α)` with lookup / replacing insert / erase; the source never
  iterates over these dicts, so only the map view matters.
* Python `str.upper()` is modelled character-wise by `Char.toUpper` (the source
  only ever uppercases ASCII ticker symbols).
* The regexes `^\d{6}$`, `^0\d{4}$`, `^[A-Z]+$` of the source are modelled by
  the executable ASCII predicates below.
* A provider adapter invocation is modelled by an oracle `env : String →
  FetchOutcome` giving, per provider name, the outcome of calling its adapter
  during this `fetch_price` call: a returned float (`price`), a `None` return
  (`noPrice`), or a raised exception with its message (`exc`).  The third
  component returned by `fetch_price` is instrumentation: the list of provider
  names whose adapter was actually invoked, in order.
-/

namespace InvestLog

/-- ASCII model of the regex character class `[A-Z]`. -/
def isUpperAZ (c : Char) : Bool := 65 ≤ c.toNat && c.toNat ≤ 90

/-- ASCII model of the regex character class `\d`. -/
def isDigitB (c : Char) : Bool := 48 ≤ c.toNat && c.toNat ≤ 57

/-- Model of Python `str.upper()` (character-wise ASCII case folding). -/
def pyUpper (s : String) : String := ⟨s.data.map Char.toUpper⟩

/-- Model of Python `str.startswith(pre)`. -/
def pyStartsWith (s pre : String) : Bool := pre.data.isPrefixOf s.data

/-- Substring test on character lists: does `needle` occur inside the list? -/
def containsAux (needle : List Char) : List Char → Bool
  | [] => needle.isEmpty
  | c :: rest => needle.isPrefixOf (c :: rest) || containsAux needle rest

/-- Model of Python `needle in hay` on strings. -/
def pyContains (hay needle : String) : Bool := containsAux needle.data hay.data

/-- Model of the regex `^\d{6}$` used by `detect_symbol_type`. -/
def matchSixDigits (s : String) : Bool := s.data.length == 6 && s.data.all isDigitB

/-- Model of the regex `^0\d{4}$` used by `detect_symbol_type`. -/
def matchHKPattern (s : String) : Bool :=
  match s.data with
  | [] => false
  | c :: rest => c == '0' && rest.length == 4 && rest.all isDigitB

/-- Model of the regex `^[A-Z]+$` used by `detect_symbol_type`. -/
def matchUpperAlpha (s : String) : Bool := !s.data.isEmpty && s.data.all isUpperAZ

/-- Association-list lookup, the map view of a Python `dict.get`. -/
def mapLookup {α : Type} : List (String × α) → String → Option α
  | [], _ => none
  | (k, v) :: rest, key => if k = key then some v else mapLookup rest key

/-- Association-list erase, the map view of `d.pop(key, None)`. -/
def mapErase {α : Type} : List (String × α) → String → List (String × α)
  | [], _ => []
  | (k, v) :: rest, key =>
      if k = key then mapErase rest key else (k, v) :: mapErase rest key

/-- Association-list insert with replacement, the map view of `d[key] = v`. -/
def mapInsert {α : Type} (m : List (String × α)) (key : String) (v : α) :
    List (String × α) :=
  (key, v) :: mapErase m key

theorem mapLookup_erase_self {α : Type} (m : List (String × α)) (k : String) :
    mapLookup (mapErase m k) k = none := by
  induction m with
  | nil => rfl
  | cons p rest ih =>
    cases p with
    | mk a b =>
      by_cases hp : a = k
      · simpa [mapErase, hp] using ih
      · simpa [mapErase, mapLookup, hp] using ih

theorem mapLookup_erase_ne {α : Type} (m : List (String × α)) (k k' : String)
    (h : k' ≠ k) :
    mapLookup (mapErase m k) k' = mapLookup m k' := by
  induction m with
  | nil => rfl
  | cons p rest ih =>
    cases p with
    | mk a b =>
      by_cases hp : a = k
      · subst hp
        have ha : ¬ a = k' := fun h2 => h h2.symm
        simpa [mapErase, mapLookup, ha] using ih
      · by_cases hk' : a = k'
        · subst hk'
          simp [mapErase, mapLookup, hp]
        · simpa [mapErase, mapLookup, hp, hk'] using ih

theorem mapLookup_insert_self {α : Type} (m : List (String × α)) (k : String) (v : α) :
    mapLookup (mapInsert m k v) k = some v := by
  simp [mapInsert, mapLookup]

theorem mapLookup_insert_ne {α : Type} (m : List (String × α)) (k k' : String)
    (v : α) (h : k' ≠ k) :
    mapLookup (mapInsert m k v) k' = mapLookup m k' := by
  simp only [mapInsert, mapLookup, if_neg (Ne.symm h)]
  exact mapLookup_erase_ne m k k' h

theorem char_toNat_ofNat_of_lt {n : ℕ} (h : n < 55296) : (Char.ofNat n).toNat = n := by
  rw [Char.ofNat, dif_pos (Or.inl h)]
  rfl

theorem char_toUpper_of_not_lower {c : Char}
    (h : ¬ (97 ≤ c.toNat ∧ c.toNat ≤ 122)) : Char.toUpper c = c := by
  simp only [Char.toUpper]
  rw [if_neg h]

theorem char_toNat_toUpper_of_lower {c : Char}
    (h : 97 ≤ c.toNat ∧ c.toNat ≤ 122) : (Char.toUpper c).toNat = c.toNat - 32 := by
  simp only [Char.toUpper]
  rw [if_pos h]
  exact char_toNat_ofNat_of_lt (by omega)

theorem char_toUpper_toUpper (c : Char) :
    Char.toUpper (Char.toUpper c) = Char.toUpper c := by
  by_cases h : 97 ≤ c.toNat ∧ c.toNat ≤ 122
  · apply char_toUpper_of_not_lower
    rw [char_toNat_toUpper_of_lower h]
    omega
  · simp only [char_toUpper_of_not_lower h]

theorem char_toUpper_of_isUpperAZ {c : Char} (h : isUpperAZ c = true) :
    Char.toUpper c = c := by
  simp only [isUpperAZ, Bool.and_eq_true, decide_eq_true_eq] at h
  exact char_toUpper_of_not_lower (by omega)

theorem pyUpper_idem (s : String) : pyUpper (pyUpper s) = pyUpper s := by
  have hf : Char.toUpper ∘ Char.toUpper = Char.toUpper := funext char_toUpper_toUpper
  simp [pyUpper, List.map_map, hf]

theorem pyUpper_of_allAZ {s : String} (h : s.data.all isUpperAZ = true) :
    pyUpper s = s := by
  cases s with
  | mk l =>
    simp only [List.all_eq_true] at h
    simp only [pyUpper]
    congr 1
    calc List.map Char.toUpper l
        = List.map id l := List.map_congr_left fun c hc => char_toUpper_of_isUpperAZ (h c hc)
      _ = l := List.map_id l

theorem isUpperAZ_not_digit {c : Char} (h : isUpperAZ c = true) :
    isDigitB c = false := by
  simp only [isUpperAZ, Bool.and_eq_true, decide_eq_true_eq] at h
  simp only [isDigitB, Bool.and_eq_false_iff, decide_eq_false_iff_not]
  omega

theorem matchUpperAlpha_sixDigits_false {s : String}
    (h : matchUpperAlpha s = true) : matchSixDigits s = false := by
  simp only [matchUpperAlpha, Bool.and_eq_true, Bool.not_eq_true',
    List.isEmpty_eq_false_iff_exists_mem] at h
  obtain ⟨⟨c, hc⟩, hall⟩ := h
  simp only [List.all_eq_true] at hall
  simp only [matchSixDigits, Bool.and_eq_false_iff]
  right
  rw [List.all_eq_false]
  exact ⟨c, hc, by rw [isUpperAZ_not_digit (hall c hc)]; simp⟩

theorem matchUpperAlpha_hkPattern_false {s : String}
    (h : matchUpperAlpha s = true) : matchHKPattern s = false := by
  simp only [matchUpperAlpha, Bool.and_eq_true, Bool.not_eq_true'] at h
  obtain ⟨hne, hall⟩ := h
  simp only [List.all_eq_true] at hall
  unfold matchHKPattern
  cases hd : s.data with
  | nil => rfl
  | cons c rest =>
    have hc : isUpperAZ c = true := hall c (by rw [hd]; exact List.mem_cons_self c rest)
    simp only [isUpperAZ, Bool.and_eq_true, decide_eq_true_eq] at hc
    have : (c == '0') = false := by
      rw [beq_eq_false_iff_ne]
      intro heq
      rw [heq] at hc
      simp at hc
    simp [this]

/-- A value of `_PRICE_CACHE`: the tuple `(price, monotonic(), source)` stored
by `_set_cached_price`. -/
structure CacheEntry where
  price : ℤ
  ts : ℤ
  source : String
deriving DecidableEq, Repr

/-- A value of `_SERVICE_STATE`: the per-provider dict created by
`_record_service_failure`. -/
structure ServiceState where
  fail_count : ℕ
  first_fail_at : ℤ
  cooldown_until : ℤ
deriving DecidableEq, Repr

/-- The two module-level dicts `_PRICE_CACHE` and `_SERVICE_STATE`. -/
structure FetchState where
  price_cache : List (String × CacheEntry)
  service_state : List (String × ServiceState)
deriving DecidableEq, Repr

/-- Outcome of invoking one provider adapter inside `fetch_price`: a returned
float (`price`), a `None` return (`noPrice`), or a raised exception whose
`str(e)` is `msg` (`exc`). -/
inductive FetchOutcome where
  | price (p : ℤ)
  | noPrice
  | exc (msg : String)
deriving DecidableEq, Repr

/-- The `(price, message)` pair returned by `fetch_price`. -/
structure FetchResult where
  price : Option ℤ
  message : String
deriving DecidableEq, Repr

/-- `_CACHE_TTL_SECONDS = 30` -/
def cacheTTLSeconds : ℤ := 30

/-- `_SERVICE_FAIL_THRESHOLD = 3` -/
def serviceFailThreshold : ℕ := 3

/-- `_SERVICE_FAIL_WINDOW_SECONDS = 60` -/
def serviceFailWindowSeconds : ℤ := 60

/-- `_SERVICE_COOLDOWN_SECONDS = 120` -/
def serviceCooldownSeconds : ℤ := 120

/-- `_cache_key(symbol, currency, asset_type)`:
the f-string `f"{symbol.upper()}|{currency}|{asset_type}"`. -/
def cacheKey (symbol currency asset_type : String) : String :=
  pyUpper symbol ++ "|" ++ currency ++ "|" ++ asset_type

/-- `_get_cached_price`: lookup under `_cache_key`, served only while
`now - ts <= _CACHE_TTL_SECONDS`; expired entries are ignored, not removed
(the function never mutates the dict, which this pure reading mirrors). -/
def getCachedPrice (cache : List (String × CacheEntry))
    (symbol currency asset_type : String) (now : ℤ) : Option (ℤ × String) :=
  match mapLookup cache (cacheKey symbol currency asset_type) with
  | none => none
  | some e => if now - e.ts ≤ cacheTTLSeconds then some (e.price, e.source) else none

/-- `_set_cached_price`: unconditional replacing write of
`(price, monotonic(), source)`. -/
def setCachedPrice (cache : List (String × CacheEntry))
    (symbol currency asset_type : String) (price : ℤ) (source : String) (now : ℤ) :
    List (String × CacheEntry) :=
  mapInsert cache (cacheKey symbol currency asset_type) ⟨price, now, source⟩

/-- `_service_available`: no state means available; otherwise available iff
`now >= cooldown_until`. -/
def serviceAvailable (service : List (String × ServiceState)) (name : String)
    (now : ℤ) : Bool :=
  match mapLookup service name with
  | none => true
  | some st => now ≥ st.cooldown_until

/-- The in-place mutation that `_record_service_failure` performs on one
provider's state dict: reset the window if
`now - first_fail_at > _SERVICE_FAIL_WINDOW_SECONDS`, increment `fail_count`,
and set `cooldown_until = now + _SERVICE_COOLDOWN_SECONDS` once
`fail_count >= _SERVICE_FAIL_THRESHOLD`. -/
def failStep (st : ServiceState) (now : ℤ) : ServiceState :=
  let st := if now - st.first_fail_at > serviceFailWindowSeconds then
              { st with fail_count := 0, first_fail_at := now }
            else st
  let st := { st with fail_count := st.fail_count + 1 }
  if st.fail_count ≥ serviceFailThreshold then
    { st with cooldown_until := now + serviceCooldownSeconds }
  else st

/-- `_record_service_failure`: `setdefault` the per-provider state to
`{fail_count: 0, first_fail_at: now, cooldown_until: 0}` and mutate it by
`failStep` (the net effect of the in-place Python mutation is storing the
stepped state back into the dict). -/
def recordServiceFailure (service : List (String × ServiceState)) (name : String)
    (now : ℤ) : List (String × ServiceState) :=
  mapInsert service name (failStep ((mapLookup service name).getD ⟨0, now, 0⟩) now)

/-- `_record_service_success`: `pop` the provider's state. -/
def recordServiceSuccess (service : List (String × ServiceState)) (name : String) :
    List (String × ServiceState) :=
  mapErase service name

/-- The nested helper `_is_a_share_stock` of `detect_symbol_type`. -/
def isAShareStock (code : String) : Bool :=
  ["000", "001", "002", "003", "300", "301", "600", "601", "603", "605",
   "688", "689"].any (fun p => pyStartsWith code p)

/-- The nested helper `_is_etf_or_lof` of `detect_symbol_type`. -/
def isEtfOrLof (code : String) : Bool :=
  pyStartsWith code "5" || pyStartsWith code "15" || pyStartsWith code "16"

/-- `detect_symbol_type(symbol, currency)`, rule for rule; the local variable
`symbol` is rebound to `symbol.upper()` first, and the later clauses apply
`.upper()` again exactly where the source does. -/
def detectSymbolType (symbol currency : String) : String :=
  let symbol := pyUpper symbol
  if pyStartsWith symbol "SH" || pyStartsWith symbol "SZ" then "a_share"
  else if currency == "CNY" && matchSixDigits symbol then
    (if isAShareStock symbol || isEtfOrLof symbol then "a_share" else "fund")
  else if currency == "HKD" || matchHKPattern symbol then "hk_stock"
  else if pyContains symbol "AU" || pyContains (pyUpper symbol) "GOLD" then "gold"
  else if pyUpper symbol == "CASH" then "cash"
  else if currency == "USD" || matchUpperAlpha symbol then "us_stock"
  else if pyContains (pyUpper symbol) "BOND" then "bond"
  else "unknown"

/-- The ordered provider chain (`fetch_attempts` service names) that
`fetch_price` builds for each `symbol_type`. -/
def chainFor (symbolType : String) : List String :=
  if symbolType == "a_share" then
    ["pqquotation", "Tencent Finance", "Sina Finance", "Eastmoney",
     "Eastmoney Fund", "Yahoo Finance"]
  else if symbolType == "fund" then
    ["Eastmoney Fund GZ", "Eastmoney Fund PZ", "Eastmoney Fund LSJZ", "Eastmoney"]
  else if symbolType == "hk_stock" then
    ["Yahoo Finance", "Sina Finance", "Tencent Finance"]
  else if symbolType == "us_stock" then
    ["Yahoo Finance", "Sina Finance", "Tencent Finance"]
  else if symbolType == "gold" then
    ["Yahoo Finance"]
  else []

/-- The provider loop of `fetch_price` (lines 604-629): walk the chain, skip
breaker-unavailable providers with a cooling-down diagnostic, record
success/failure, first success writes the cache and returns.  `errors` is the
accumulated diagnostic list, `invoked` the instrumentation trace of adapters
actually called. -/
def fetchLoop (symbol currency asset_type : String) (now : ℤ)
    (env : String → FetchOutcome) :
    List String → FetchState → List String → List String →
    FetchResult × FetchState × List String
  | [], st, errors, invoked =>
      (⟨none, "价格获取失败: " ++
          (if errors.isEmpty then "所有数据源均不可用"
           else String.intercalate "; " errors)⟩, st, invoked)
  | name :: rest, st, errors, invoked =>
      if serviceAvailable st.service_state name now then
        match env name with
        | .price p =>
            (⟨some p, "价格获取成功 (来源: " ++ name ++ ")"⟩,
             ⟨setCachedPrice st.price_cache symbol currency asset_type p name now,
              recordServiceSuccess st.service_state name⟩,
             invoked ++ [name])
        | .noPrice =>
            fetchLoop symbol currency asset_type now env rest
              ⟨st.price_cache, recordServiceFailure st.service_state name now⟩
              (errors ++ [name ++ ": 未获取到数据"]) (invoked ++ [name])
        | .exc msg =>
            fetchLoop symbol currency asset_type now env rest
              ⟨st.price_cache, recordServiceFailure st.service_state name now⟩
              (errors ++ [name ++ ": " ++ msg]) (invoked ++ [name])
      else
        fetchLoop symbol currency asset_type now env rest st
          (errors ++ [name ++ ": 熔断冷却中"]) invoked

/-- `fetch_price(symbol, currency, asset_type)`: classify, consult the cache
(keyed by the caller-supplied `asset_type`), short-circuit bond/cash/unknown,
otherwise walk the provider chain.  `env` gives each adapter's outcome for
this call, `now` the monotonic clock; the third result component is the
instrumentation trace of adapters invoked. -/
def fetchPrice (symbol currency asset_type : String) (now : ℤ)
    (env : String → FetchOutcome) (st : FetchState) :
    FetchResult × FetchState × List String :=
  let symbolType := detectSymbolType symbol currency
  match getCachedPrice st.price_cache symbol currency asset_type now with
  | some (price, source) =>
      (⟨some price, "价格获取成功 (缓存, 来源: " ++ source ++ ")"⟩, st, [])
  | none =>
      if symbolType == "bond" then
        (⟨none, "债券价格暂不支持自动获取"⟩, st, [])
      else if symbolType == "cash" then
        (⟨some 1, "现金价格固定为 1.0"⟩, st, [])
      else if symbolType == "unknown" then
        (⟨none, "无法识别标的类型: " ++ symbol⟩, st, [])
      else
        fetchLoop symbol currency asset_type now env (chainFor symbolType) st [] []

/-- The instrument classes that route to a provider chain. -/
def providerClasses : List String := ["a_share", "fund", "hk_stock", "us_stock", "gold"]

theorem chainFor_nodup (t : String) : (chainFor t).Nodup := by
  unfold chainFor
  repeat' split
  all_goals decide

theorem mapLookup_recordServiceFailure_ne (m : List (String × ServiceState))
    (q n : String) (t : ℤ) (h : n ≠ q) :
    mapLookup (recordServiceFailure m q t) n = mapLookup m n := by
  unfold recordServiceFailure
  exact mapLookup_insert_ne m q n _ h

theorem serviceAvailable_recordServiceFailure_ne (m : List (String × ServiceState))
    (q n : String) (t u : ℤ) (h : n ≠ q) :
    serviceAvailable (recordServiceFailure m q t) n u = serviceAvailable m n u := by
  unfold serviceAvailable
  rw [mapLookup_recordServiceFailure_ne m q n t h]

/-- Message built by the exhaustion path of `fetch_price`
(`"价格获取失败: " + "; ".join(errors)`, with the fallback text for an empty
error list). -/
def failMessage (errors : List String) : String :=
  "价格获取失败: " ++
    (if errors.isEmpty then "所有数据源均不可用" else String.intercalate "; " errors)

/-- The diagnostic line that the provider loop appends for provider `n`,
as a function of the breaker state the loop was entered with and of the
adapter outcome; the `.price` case is never consulted by the lemmas below. -/
def diagEntry (svc : List (String × ServiceState)) (env : String → FetchOutcome)
    (now : ℤ) (n : String) : String :=
  if serviceAvailable svc n now then
    match env n with
    | .price _ => n
    | .noPrice => n ++ ": 未获取到数据"
    | .exc m => n ++ ": " ++ m
  else n ++ ": 熔断冷却中"

/-- Exhaustion lemma for the provider loop: if every provider in the (nodup)
chain is either breaker-unavailable or fails, the loop returns no price, the
diagnostic extends `errors` with one `diagEntry` per provider in chain order,
and the price cache is left untouched.  `svc` is the breaker map the loop was
entered with; the agreement hypothesis lets the induction go through while
failures are being recorded. -/
theorem fetchLoop_exhaust (symbol currency asset_type : String) (now : ℤ)
    (env : String → FetchOutcome) (svc : List (String × ServiceState)) :
    ∀ (chain : List String) (st : FetchState) (errors invoked : List String),
    chain.Nodup →
    (∀ n ∈ chain, mapLookup st.service_state n = mapLookup svc n) →
    (∀ n ∈ chain, serviceAvailable svc n now = true →
      env n = .noPrice ∨ ∃ m, env n = .exc m) →
    (fetchLoop symbol currency asset_type now env chain st errors invoked).1 =
        ⟨none, failMessage (errors ++ chain.map (diagEntry svc env now))⟩ ∧
    (fetchLoop symbol currency asset_type now env chain st errors invoked).2.1.price_cache =
        st.price_cache := by
  intro chain
  induction chain with
  | nil =>
    intro st errors invoked _ _ _
    simp [fetchLoop, failMessage]
  | cons name rest ih =>
    intro st errors invoked hnd hagree hfail
    have hnd' : rest.Nodup := (List.nodup_cons.mp hnd).2
    have hnm : name ∉ rest := (List.nodup_cons.mp hnd).1
    have havail : serviceAvailable st.service_state name now =
        serviceAvailable svc name now := by
      unfold serviceAvailable
      rw [hagree name (List.mem_cons_self name rest)]
    by_cases hav : serviceAvailable svc name now = true
    · have hf := hfail name (List.mem_cons_self name rest) hav
      have hagree' : ∀ n ∈ rest,
          mapLookup (recordServiceFailure st.service_state name now) n =
            mapLookup svc n := by
        intro n hn
        have hne : n ≠ name := fun h => hnm (h ▸ hn)
        rw [mapLookup_recordServiceFailure_ne _ _ _ _ hne]
        exact hagree n (List.mem_cons_of_mem name hn)
      have hfail' : ∀ n ∈ rest, serviceAvailable svc n now = true →
          env n = .noPrice ∨ ∃ m, env n = .exc m :=
        fun n hn => hfail n (List.mem_cons_of_mem name hn)
      rcases hf with hnp | ⟨msg, hexc⟩
      · obtain ⟨h1, h2⟩ := ih ⟨st.price_cache, recordServiceFailure st.service_state name now⟩
          (errors ++ [name ++ ": 未获取到数据"]) (invoked ++ [name]) hnd' hagree' hfail'
        have hstep : fetchLoop symbol currency asset_type now env (name :: rest) st errors invoked
            = fetchLoop symbol currency asset_type now env rest
                ⟨st.price_cache, recordServiceFailure st.service_state name now⟩
                (errors ++ [name ++ ": 未获取到数据"]) (invoked ++ [name]) := by
          simp only [fetchLoop, havail, hav, if_true, hnp]
        rw [hstep, h1]
        refine ⟨?_, h2⟩
        simp [diagEntry, hav, hnp, List.append_assoc]
      · obtain ⟨h1, h2⟩ := ih ⟨st.price_cache, recordServiceFailure st.service_state name now⟩
          (errors ++ [name ++ ": " ++ msg]) (invoked ++ [name]) hnd' hagree' hfail'
        have hstep : fetchLoop symbol currency asset_type now env (name :: rest) st errors invoked
            = fetchLoop symbol currency asset_type now env rest
                ⟨st.price_cache, recordServiceFailure st.service_state name now⟩
                (errors ++ [name ++ ": " ++ msg]) (invoked ++ [name]) := by
          simp only [fetchLoop, havail, hav, if_true, hexc]
        rw [hstep, h1]
        refine ⟨?_, h2⟩
        simp [diagEntry, hav, hexc, List.append_assoc]
    · have hav' : serviceAvailable svc name now = false := by
        cases h : serviceAvailable svc name now
        · rfl
        · exact absurd h hav
      obtain ⟨h1, h2⟩ := ih st (errors ++ [name ++ ": 熔断冷却中"]) invoked hnd'
        (fun n hn => hagree n (List.mem_cons_of_mem name hn))
        (fun n hn => hfail n (List.mem_cons_of_mem name hn))
      have hstep : fetchLoop symbol currency asset_type now env (name :: rest) st errors invoked
          = fetchLoop symbol currency asset_type now env rest st
              (errors ++ [name ++ ": 熔断冷却中"]) invoked := by
        simp only [fetchLoop, havail, hav', Bool.false_eq_true, if_false]
      rw [hstep, h1]
      refine ⟨?_, h2⟩
      simp [diagEntry, hav', List.append_assoc]

/-- First-success lemma for the provider loop: with a (nodup) chain
`pre ++ p :: post` in which every provider of `pre` is breaker-unavailable or
fails, and `p` is available and returns price `v`, the loop returns `v` with
the success message for `p`, the cache holds `(v, now, p)` under the call's
key, the breaker state of `p` is cleared, and no provider of `post` is ever
invoked. -/
theorem fetchLoop_first_success (symbol currency asset_type : String) (now : ℤ)
    (env : String → FetchOutcome) :
    ∀ (pre : List String) (p : String) (post : List String) (st : FetchState)
      (errors invoked : List String) (v : ℤ),
    (pre ++ p :: post).Nodup →
    (∀ q ∈ pre, serviceAvailable st.service_state q now = false ∨
      env q = .noPrice ∨ ∃ m, env q = .exc m) →
    serviceAvailable st.service_state p now = true →
    env p = .price v →
    (fetchLoop symbol currency asset_type now env (pre ++ p :: post) st errors invoked).1 =
        ⟨some v, "价格获取成功 (来源: " ++ p ++ ")"⟩ ∧
    mapLookup (fetchLoop symbol currency asset_type now env (pre ++ p :: post) st errors invoked).2.1.price_cache
        (cacheKey symbol currency asset_type) = some ⟨v, now, p⟩ ∧
    mapLookup (fetchLoop symbol currency asset_type now env (pre ++ p :: post) st errors invoked).2.1.service_state
        p = none ∧
    ∃ tr, (fetchLoop symbol currency asset_type now env (pre ++ p :: post) st errors invoked).2.2 =
        invoked ++ tr ∧ ∀ q ∈ post, q ∉ tr := by
  intro pre
  induction pre with
  | nil =>
    intro p post st errors invoked v hnd _ hav hp
    have hpnotin : p ∉ post := (List.nodup_cons.mp hnd).1
    have hstep : fetchLoop symbol currency asset_type now env (p :: post) st errors invoked
        = (⟨some v, "价格获取成功 (来源: " ++ p ++ ")"⟩,
           ⟨setCachedPrice st.price_cache symbol currency asset_type v p now,
            recordServiceSuccess st.service_state p⟩,
           invoked ++ [p]) := by
      simp only [fetchLoop, hav, if_true, hp]
    rw [List.nil_append, hstep]
    refine ⟨rfl, ?_, ?_, [p], rfl, ?_⟩
    · exact mapLookup_insert_self _ _ _
    · exact mapLookup_erase_self _ _
    · intro q hq
      simp only [List.mem_singleton]
      intro hqp
      exact hpnotin (hqp ▸ hq)
  | cons q pre' ih =>
    intro p post st errors invoked v hnd hpre hav hp
    have hnd' : (pre' ++ p :: post).Nodup := (List.nodup_cons.mp (by simpa using hnd)).2
    have hqnotin : q ∉ pre' ++ p :: post := (List.nodup_cons.mp (by simpa using hnd)).1
    have hqp : p ≠ q := by
      intro h
      exact hqnotin (h ▸ List.mem_append_right pre' (List.mem_cons_self p post))
    have hqpost : q ∉ post := fun h =>
      hqnotin (List.mem_append_right pre' (List.mem_cons_of_mem p h))
    have hqpre' : q ∉ pre' := fun h => hqnotin (List.mem_append_left _ h)
    cases havq : serviceAvailable st.service_state q now with
    | false =>
      have hstep : fetchLoop symbol currency asset_type now env ((q :: pre') ++ p :: post) st errors invoked
          = fetchLoop symbol currency asset_type now env (pre' ++ p :: post) st
              (errors ++ [q ++ ": 熔断冷却中"]) invoked := by
        simp only [List.cons_append, fetchLoop, havq, Bool.false_eq_true, if_false,
          List.append_eq]
      rw [hstep]
      exact ih p post st _ invoked v hnd'
        (fun r hr => hpre r (List.mem_cons_of_mem q hr)) hav hp
    | true =>
      have hfq : env q = .noPrice ∨ ∃ m, env q = .exc m := by
        rcases hpre q (List.mem_cons_self q pre') with h1 | h2
        · rw [havq] at h1; exact absurd h1 (by simp)
        · exact h2
      have hpre'' : ∀ r ∈ pre',
          serviceAvailable (recordServiceFailure st.service_state q now) r now = false ∨
            env r = .noPrice ∨ ∃ m, env r = .exc m := by
        intro r hr
        have hrq : r ≠ q := by
          intro hh
          exact hqpre' (hh ▸ hr)
        rcases hpre r (List.mem_cons_of_mem q hr) with h1 | h2
        · left
          rw [serviceAvailable_recordServiceFailure_ne _ _ _ _ _ hrq]
          exact h1
        · right; exact h2
      have hav' : serviceAvailable (recordServiceFailure st.service_state q now) p now = true := by
        rw [serviceAvailable_recordServiceFailure_ne _ _ _ _ _ hqp]
        exact hav
      have hfinish : ∀ (estep : String),
          fetchLoop symbol currency asset_type now env ((q :: pre') ++ p :: post) st errors invoked
            = fetchLoop symbol currency asset_type now env (pre' ++ p :: post)
                ⟨st.price_cache, recordServiceFailure st.service_state q now⟩
                (errors ++ [estep]) (invoked ++ [q]) →
          (fetchLoop symbol currency asset_type now env ((q :: pre') ++ p :: post) st errors invoked).1 =
              ⟨some v, "价格获取成功 (来源: " ++ p ++ ")"⟩ ∧
          mapLookup (fetchLoop symbol currency asset_type now env ((q :: pre') ++ p :: post) st errors invoked).2.1.price_cache
              (cacheKey symbol currency asset_type) = some ⟨v, now, p⟩ ∧
          mapLookup (fetchLoop symbol currency asset_type now env ((q :: pre') ++ p :: post) st errors invoked).2.1.service_state
              p = none ∧
          ∃ tr, (fetchLoop symbol currency asset_type now env ((q :: pre') ++ p :: post) st errors invoked).2.2 =
              invoked ++ tr ∧ ∀ r ∈ post, r ∉ tr := by
        intro estep hstep
        rw [hstep]
        obtain ⟨c1, c2, c3, tr', htr', hnotin⟩ :=
          ih p post ⟨st.price_cache, recordServiceFailure st.service_state q now⟩
            (errors ++ [estep]) (invoked ++ [q]) v hnd' hpre'' hav' hp
        refine ⟨c1, c2, c3, q :: tr', ?_, ?_⟩
        · rw [htr', List.append_assoc]
          rfl
        · intro r hr hmem
          rcases List.mem_cons.mp hmem with hrq | hrtr
          · exact hqpost (hrq ▸ hr)
          · exact hnotin r hr hrtr
      rcases hfq with hnp | ⟨msg, hexc⟩
      · exact hfinish (q ++ ": 未获取到数据")
          (by simp only [List.cons_append, fetchLoop, havq, if_true, hnp, List.append_eq])
      · exact hfinish (q ++ ": " ++ msg)
          (by simp only [List.cons_append, fetchLoop, havq, if_true, hexc, List.append_eq])

/-- The provider loop either leaves the price cache untouched, or some
provider `p` of the chain returned the price `v` that the loop reports, and
the cache is exactly the old cache with `(v, now, p)` written under the
call's key.  In particular no `noPrice`/`exc` outcome is ever cached. -/
theorem fetchLoop_cache_evolution (symbol currency asset_type : String) (now : ℤ)
    (env : String → FetchOutcome) :
    ∀ (chain : List String) (st : FetchState) (errors invoked : List String),
    (fetchLoop symbol currency asset_type now env chain st errors invoked).2.1.price_cache =
        st.price_cache ∨
    ∃ p v, p ∈ chain ∧ env p = .price v ∧
      (fetchLoop symbol currency asset_type now env chain st errors invoked).1.price = some v ∧
      (fetchLoop symbol currency asset_type now env chain st errors invoked).2.1.price_cache =
        setCachedPrice st.price_cache symbol currency asset_type v p now := by
  intro chain
  induction chain with
  | nil =>
    intro st errors invoked
    left
    simp [fetchLoop]
  | cons name rest ih =>
    intro st errors invoked
    cases hav : serviceAvailable st.service_state name now with
    | false =>
      have hstep : fetchLoop symbol currency asset_type now env (name :: rest) st errors invoked
          = fetchLoop symbol currency asset_type now env rest st
              (errors ++ [name ++ ": 熔断冷却中"]) invoked := by
        simp only [fetchLoop, hav, Bool.false_eq_true, if_false]
      rw [hstep]
      rcases ih st (errors ++ [name ++ ": 熔断冷却中"]) invoked with h | ⟨p, v, hmem, henv, h1, h2⟩
      · left; exact h
      · right; exact ⟨p, v, List.mem_cons_of_mem name hmem, henv, h1, h2⟩
    | true =>
      cases henv : env name with
      | price v =>
        right
        refine ⟨name, v, List.mem_cons_self name rest, henv, ?_, ?_⟩ <;>
          simp only [fetchLoop, hav, if_true, henv]
      | noPrice =>
        have hstep : fetchLoop symbol currency asset_type now env (name :: rest) st errors invoked
            = fetchLoop symbol currency asset_type now env rest
                ⟨st.price_cache, recordServiceFailure st.service_state name now⟩
                (errors ++ [name ++ ": 未获取到数据"]) (invoked ++ [name]) := by
          simp only [fetchLoop, hav, if_true, henv]
        rw [hstep]
        rcases ih ⟨st.price_cache, recordServiceFailure st.service_state name now⟩
            (errors ++ [name ++ ": 未获取到数据"]) (invoked ++ [name]) with h | ⟨p, v, hmem, henv', h1, h2⟩
        · left; exact h
        · right; exact ⟨p, v, List.mem_cons_of_mem name hmem, henv', h1, h2⟩
      | exc msg =>
        have hstep : fetchLoop symbol currency asset_type now env (name :: rest) st errors invoked
            = fetchLoop symbol currency asset_type now env rest
                ⟨st.price_cache, recordServiceFailure st.service_state name now⟩
                (errors ++ [name ++ ": " ++ msg]) (invoked ++ [name]) := by
          simp only [fetchLoop, hav, if_true, henv]
        rw [hstep]
        rcases ih ⟨st.price_cache, recordServiceFailure st.service_state name now⟩
            (errors ++ [name ++ ": " ++ msg]) (invoked ++ [name]) with h | ⟨p, v, hmem, henv', h1, h2⟩
        · left; exact h
        · right; exact ⟨p, v, List.mem_cons_of_mem name hmem, henv', h1, h2⟩

/-- Swapping one provider's outcome between "raised an exception" and
"returned no price" changes nothing about the loop except the wording of the
diagnostic: price, final state, and the set of invoked adapters agree. -/
theorem fetchLoop_exc_eq_noPrice (symbol currency asset_type : String) (now : ℤ)
    (env : String → FetchOutcome) (n : String) (m : String) :
    ∀ (chain : List String) (st : FetchState) (errors1 errors2 invoked : List String),
    (fetchLoop symbol currency asset_type now
      (fun k => if k = n then FetchOutcome.exc m else env k) chain st errors1 invoked).1.price =
    (fetchLoop symbol currency asset_type now
      (fun k => if k = n then FetchOutcome.noPrice else env k) chain st errors2 invoked).1.price ∧
    (fetchLoop symbol currency asset_type now
      (fun k => if k = n then FetchOutcome.exc m else env k) chain st errors1 invoked).2 =
    (fetchLoop symbol currency asset_type now
      (fun k => if k = n then FetchOutcome.noPrice else env k) chain st errors2 invoked).2 := by
  intro chain
  induction chain with
  | nil =>
    intro st errors1 errors2 invoked
    exact ⟨rfl, rfl⟩
  | cons name rest ih =>
    intro st errors1 errors2 invoked
    cases hav : serviceAvailable st.service_state name now with
    | false =>
      have h1 : fetchLoop symbol currency asset_type now
          (fun k => if k = n then FetchOutcome.exc m else env k) (name :: rest) st errors1 invoked
          = fetchLoop symbol currency asset_type now
              (fun k => if k = n then FetchOutcome.exc m else env k) rest st
              (errors1 ++ [name ++ ": 熔断冷却中"]) invoked := by
        simp only [fetchLoop, hav, Bool.false_eq_true, if_false]
      have h2 : fetchLoop symbol currency asset_type now
          (fun k => if k = n then FetchOutcome.noPrice else env k) (name :: rest) st errors2 invoked
          = fetchLoop symbol currency asset_type now
              (fun k => if k = n then FetchOutcome.noPrice else env k) rest st
              (errors2 ++ [name ++ ": 熔断冷却中"]) invoked := by
        simp only [fetchLoop, hav, Bool.false_eq_true, if_false]
      rw [h1, h2]
      exact ih st _ _ invoked
    | true =>
      by_cases hn : name = n
      · subst hn
        have e1 : (fun k => if k = name then FetchOutcome.exc m else env k) name
            = FetchOutcome.exc m := by simp
        have e2 : (fun k => if k = name then FetchOutcome.noPrice else env k) name
            = FetchOutcome.noPrice := by simp
        have h1 : fetchLoop symbol currency asset_type now
            (fun k => if k = name then FetchOutcome.exc m else env k) (name :: rest) st errors1 invoked
            = fetchLoop symbol currency asset_type now
                (fun k => if k = name then FetchOutcome.exc m else env k) rest
                ⟨st.price_cache, recordServiceFailure st.service_state name now⟩
                (errors1 ++ [name ++ ": " ++ m]) (invoked ++ [name]) := by
          simp [fetchLoop, hav]
        have h2 : fetchLoop symbol currency asset_type now
            (fun k => if k = name then FetchOutcome.noPrice else env k) (name :: rest) st errors2 invoked
            = fetchLoop symbol currency asset_type now
                (fun k => if k = name then FetchOutcome.noPrice else env k) rest
                ⟨st.price_cache, recordServiceFailure st.service_state name now⟩
                (errors2 ++ [name ++ ": 未获取到数据"]) (invoked ++ [name]) := by
          simp [fetchLoop, hav]
        rw [h1, h2]
        exact ih _ _ _ _
      · have e1 : (fun k => if k = n then FetchOutcome.exc m else env k) name = env name := by
          simp [hn]
        have e2 : (fun k => if k = n then FetchOutcome.noPrice else env k) name = env name := by
          simp [hn]
        cases henv : env name with
        | price v =>
          constructor <;>
            simp [fetchLoop, hav, hn, henv]
        | noPrice =>
          have h1 : fetchLoop symbol currency asset_type now
              (fun k => if k = n then FetchOutcome.exc m else env k) (name :: rest) st errors1 invoked
              = fetchLoop symbol currency asset_type now
                  (fun k => if k = n then FetchOutcome.exc m else env k) rest
                  ⟨st.price_cache, recordServiceFailure st.service_state name now⟩
                  (errors1 ++ [name ++ ": 未获取到数据"]) (invoked ++ [name]) := by
            simp [fetchLoop, hav, hn, henv]
          have h2 : fetchLoop symbol currency asset_type now
              (fun k => if k = n then FetchOutcome.noPrice else env k) (name :: rest) st errors2 invoked
              = fetchLoop symbol currency asset_type now
                  (fun k => if k = n then FetchOutcome.noPrice else env k) rest
                  ⟨st.price_cache, recordServiceFailure st.service_state name now⟩
                  (errors2 ++ [name ++ ": 未获取到数据"]) (invoked ++ [name]) := by
            simp [fetchLoop, hav, hn, henv]
          rw [h1, h2]
          exact ih _ _ _ _
        | exc w =>
          have h1 : fetchLoop symbol currency asset_type now
              (fun k => if k = n then FetchOutcome.exc m else env k) (name :: rest) st errors1 invoked
              = fetchLoop symbol currency asset_type now
                  (fun k => if k = n then FetchOutcome.exc m else env k) rest
                  ⟨st.price_cache, recordServiceFailure st.service_state name now⟩
                  (errors1 ++ [name ++ ": " ++ w]) (invoked ++ [name]) := by
            simp [fetchLoop, hav, hn, henv]
          have h2 : fetchLoop symbol currency asset_type now
              (fun k => if k = n then FetchOutcome.noPrice else env k) (name :: rest) st errors2 invoked
              = fetchLoop symbol currency asset_type now
                  (fun k => if k = n then FetchOutcome.noPrice else env k) rest
                  ⟨st.price_cache, recordServiceFailure st.service_state name now⟩
                  (errors2 ++ [name ++ ": " ++ w]) (invoked ++ [name]) := by
            simp [fetchLoop, hav, hn, henv]
          rw [h1, h2]
          exact ih _ _ _ _

/-- On a cache miss with a provider-backed class, `fetch_price` is exactly the
provider-chain walk. -/
theorem fetchPrice_eq_loop (symbol currency asset_type : String) (now : ℤ)
    (env : String → FetchOutcome) (st : FetchState)
    (hcls : detectSymbolType symbol currency ∈ providerClasses)
    (hmiss : getCachedPrice st.price_cache symbol currency asset_type now = none) :
    fetchPrice symbol currency asset_type now env st =
      fetchLoop symbol currency asset_type now env
        (chainFor (detectSymbolType symbol currency)) st [] [] := by
  simp only [providerClasses, List.mem_cons, List.mem_singleton,
    List.not_mem_nil, or_false] at hcls
  rcases hcls with h | h | h | h | h <;>
    simp [fetchPrice, hmiss, h]

/-- On a valid cache hit `fetch_price` returns the cached entry verbatim,
leaves the state untouched, and invokes no adapter. -/
theorem fetchPrice_cache_hit (symbol currency asset_type : String) (now : ℤ)
    (env : String → FetchOutcome) (st : FetchState) (e : CacheEntry)
    (hhit : mapLookup st.price_cache (cacheKey symbol currency asset_type) = some e)
    (hfresh : now - e.ts ≤ 30) :
    fetchPrice symbol currency asset_type now env st =
      (⟨some e.price, "价格获取成功 (缓存, 来源: " ++ e.source ++ ")"⟩, st, []) := by
  have hget : getCachedPrice st.price_cache symbol currency asset_type now =
      some (e.price, e.source) := by
    simp [getCachedPrice, hhit, cacheTTLSeconds, hfresh]
  simp [fetchPrice, hget]

/-- Claim C2: for every provider name, a recorded failure increments the
failure count, after first resetting the window (count and window start) when
more than 60 seconds elapsed since the window's first failure (the state is
created with count 1 on a first failure); the failure that brings the count
to the threshold 3 makes the provider unavailable for exactly the next 120
seconds (available at `u` iff `t + 120 ≤ u`); a failure that leaves the count
below 3 does not change availability; and a recorded success removes all
breaker state for the provider, making it immediately available. -/
theorem failStep_of_in_window {st : ServiceState} {t : ℤ}
    (h : t - st.first_fail_at ≤ 60) :
    (failStep st t).fail_count = st.fail_count + 1 ∧
    (failStep st t).first_fail_at = st.first_fail_at := by
  simp only [failStep, serviceFailWindowSeconds, serviceFailThreshold,
    serviceCooldownSeconds, if_neg (show ¬ t - st.first_fail_at > 60 by omega)]
  constructor <;> split <;> rfl

theorem failStep_of_window_expired {st : ServiceState} {t : ℤ}
    (h : t - st.first_fail_at > 60) :
    (failStep st t).fail_count = 1 ∧ (failStep st t).first_fail_at = t := by
  simp only [failStep, serviceFailWindowSeconds, serviceFailThreshold,
    serviceCooldownSeconds, if_pos h]
  constructor <;> split <;> rfl

theorem failStep_cooldown_of_tripped {st : ServiceState} {t : ℤ}
    (h : 3 ≤ (failStep st t).fail_count) :
    (failStep st t).cooldown_until = t + 120 := by
  revert h
  simp only [failStep, serviceFailWindowSeconds, serviceFailThreshold,
    serviceCooldownSeconds]
  repeat' split
  all_goals intro h
  all_goals first | rfl | (exfalso; simp_all; done) | (exfalso; simp_all; omega)

theorem failStep_cooldown_of_not_tripped {st : ServiceState} {t : ℤ}
    (h : (failStep st t).fail_count < 3) :
    (failStep st t).cooldown_until = st.cooldown_until := by
  revert h
  simp only [failStep, serviceFailWindowSeconds, serviceFailThreshold,
    serviceCooldownSeconds]
  repeat' split
  all_goals intro h
  all_goals first | rfl | (exfalso; simp_all; done) | (exfalso; simp_all; omega)

theorem claim_breaker_lifecycle (m : List (String × ServiceState)) (n : String) (t : ℤ) :
    (mapLookup m n = none →
      mapLookup (recordServiceFailure m n t) n = some ⟨1, t, 0⟩) ∧
    (∀ st, mapLookup m n = some st → t - st.first_fail_at ≤ 60 →
      ∃ st', mapLookup (recordServiceFailure m n t) n = some st' ∧
        st'.fail_count = st.fail_count + 1 ∧ st'.first_fail_at = st.first_fail_at) ∧
    (∀ st, mapLookup m n = some st → t - st.first_fail_at > 60 →
      ∃ st', mapLookup (recordServiceFailure m n t) n = some st' ∧
        st'.fail_count = 1 ∧ st'.first_fail_at = t) ∧
    (∀ st', mapLookup (recordServiceFailure m n t) n = some st' →
      3 ≤ st'.fail_count →
      ∀ u, (serviceAvailable (recordServiceFailure m n t) n u = true ↔ t + 120 ≤ u)) ∧
    (∀ st', mapLookup (recordServiceFailure m n t) n = some st' →
      st'.fail_count < 3 →
      ∀ u, 0 ≤ u →
        serviceAvailable (recordServiceFailure m n t) n u = serviceAvailable m n u) ∧
    (mapLookup (recordServiceSuccess m n) n = none ∧
      ∀ u, serviceAvailable (recordServiceSuccess m n) n u = true) := by
  have hlook : mapLookup (recordServiceFailure m n t) n =
      some (failStep ((mapLookup m n).getD ⟨0, t, 0⟩) t) :=
    mapLookup_insert_self m n _
  refine ⟨?_, ?_, ?_, ?_, ?_, ?_, ?_⟩
  · intro h0
    rw [hlook, h0]
    have h1 := @failStep_of_in_window ⟨0, t, 0⟩ t (by simp)
    have h2 := @failStep_cooldown_of_not_tripped ⟨0, t, 0⟩ t (by rw [h1.1]; norm_num)
    simp only [Option.getD_none]
    congr 1
    cases hfs : failStep ⟨0, t, 0⟩ t
    rw [hfs] at h1 h2
    simp only at h1 h2
    simp [h1.1, h1.2, h2]
  · intro st hst hwin
    rw [hlook, hst]
    exact ⟨_, rfl, (failStep_of_in_window hwin).1, (failStep_of_in_window hwin).2⟩
  · intro st hst hwin
    rw [hlook, hst]
    exact ⟨_, rfl, (failStep_of_window_expired hwin).1, (failStep_of_window_expired hwin).2⟩
  · intro st' hst' hth u
    rw [hlook] at hst'
    replace hst' := Option.some.inj hst'
    subst hst'
    have hcool := failStep_cooldown_of_tripped hth
    simp only [serviceAvailable, hlook, hcool, ge_iff_le, decide_eq_true_eq]
  · intro st' hst' hth u hu
    rw [hlook] at hst'
    replace hst' := Option.some.inj hst'
    subst hst'
    have hcool := failStep_cooldown_of_not_tripped hth
    simp only [serviceAvailable, hlook, hcool]
    cases hm : mapLookup m n with
    | none =>
      simp only [hm, Option.getD_none]
      simp [hu]
    | some stOld =>
      simp only [hm, Option.getD_some]
  · exact mapLookup_erase_self m n
  · intro u
    simp [serviceAvailable, mapLookup_erase_self, recordServiceSuccess]

/-- Witness for C2 at a concrete scenario: provider `X` with two failures
since time 0 fails a third time at time 10; by the theorem it is unavailable
at time 129 and available again at time 130; a success clears the state. -/
theorem claim_breaker_lifecycle_witness :
    serviceAvailable (recordServiceFailure [("X", ⟨2, 0, 0⟩)] "X" 10) "X" 129 = false ∧
    serviceAvailable (recordServiceFailure [("X", ⟨2, 0, 0⟩)] "X" 10) "X" 130 = true ∧
    mapLookup (recordServiceSuccess (recordServiceFailure [("X", ⟨2, 0, 0⟩)] "X" 10) "X") "X" = none := by
  have h := claim_breaker_lifecycle [("X", ⟨2, 0, 0⟩)] "X" 10
  have htrip := h.2.2.2.1 ⟨3, 0, 130⟩ (by decide) (by decide)
  refine ⟨?_, ?_, ?_⟩
  · have h129 := htrip 129
    cases hb : serviceAvailable (recordServiceFailure [("X", ⟨2, 0, 0⟩)] "X" 10) "X" 129
    · rfl
    · exact absurd (h129.mp hb) (by decide)
  · exact (htrip 130).mpr (by decide)
  · exact (claim_breaker_lifecycle
      (recordServiceFailure [("X", ⟨2, 0, 0⟩)] "X" 10) "X" 0).2.2.2.2.2.1

/-- Claim C3: an entry written at `t0` is served unchanged (same price and
source) by a read at any `t` with `t - t0 ≤ 30`, is treated as absent at any
`t` with `t - t0 > 30`, and in either case stays physically present in the
map — expiry is lazy, a read never evicts (`getCachedPrice` does not modify
the cache). -/
theorem claim_cache_ttl (cache : List (String × CacheEntry))
    (symbol currency asset_type : String) (p : ℤ) (src : String) (t0 t : ℤ) :
    (t - t0 ≤ 30 →
      getCachedPrice (setCachedPrice cache symbol currency asset_type p src t0)
        symbol currency asset_type t = some (p, src)) ∧
    (t - t0 > 30 →
      getCachedPrice (setCachedPrice cache symbol currency asset_type p src t0)
        symbol currency asset_type t = none) ∧
    mapLookup (setCachedPrice cache symbol currency asset_type p src t0)
      (cacheKey symbol currency asset_type) = some ⟨p, t0, src⟩ := by
  refine ⟨?_, ?_, mapLookup_insert_self _ _ _⟩
  · intro h
    simp only [getCachedPrice, setCachedPrice, mapLookup_insert_self, cacheTTLSeconds]
    rw [if_pos h]
  · intro h
    simp only [getCachedPrice, setCachedPrice, mapLookup_insert_self, cacheTTLSeconds]
    rw [if_neg (by omega)]

/-- Witness for C3: a write at time 0 is served at time 29 and absent at
time 31, while the raw map still holds the entry. -/
theorem claim_cache_ttl_witness :
    getCachedPrice (setCachedPrice [] "600000" "CNY" "stock" 5 "pqquotation" 0)
      "600000" "CNY" "stock" 29 = some (5, "pqquotation") ∧
    getCachedPrice (setCachedPrice [] "600000" "CNY" "stock" 5 "pqquotation" 0)
      "600000" "CNY" "stock" 31 = none ∧
    mapLookup (setCachedPrice [] "600000" "CNY" "stock" 5 "pqquotation" 0)
      (cacheKey "600000" "CNY" "stock") = some ⟨5, 0, "pqquotation"⟩ :=
  ⟨(claim_cache_ttl [] "600000" "CNY" "stock" 5 "pqquotation" 0 29).1 (by decide),
   (claim_cache_ttl [] "600000" "CNY" "stock" 5 "pqquotation" 0 31).2.1 (by decide),
   (claim_cache_ttl [] "600000" "CNY" "stock" 5 "pqquotation" 0 0).2.2⟩

/-- Claim C10: a symbol whose uppercased form is purely alphabetic (`[A-Z]+`),
does not start with `SH`/`SZ`, is not the literal `CASH`, and contains neither
`AU` nor `GOLD`, classifies as `us_stock` for every currency other than `HKD`;
the classifier never returns `bond` for a purely alphabetic symbol — in
particular `BOND`/`CNY` classifies as `us_stock` — and the `bond` class is
reached only by symbols that contain `BOND` but are not purely alphabetic. -/
theorem claim_classifier_us_stock :
    (∀ symbol currency : String,
      matchUpperAlpha (pyUpper symbol) = true →
      pyStartsWith (pyUpper symbol) "SH" = false →
      pyStartsWith (pyUpper symbol) "SZ" = false →
      pyUpper symbol ≠ "CASH" →
      pyContains (pyUpper symbol) "AU" = false →
      pyContains (pyUpper symbol) "GOLD" = false →
      currency ≠ "HKD" →
      detectSymbolType symbol currency = "us_stock") ∧
    (∀ symbol currency : String, matchUpperAlpha (pyUpper symbol) = true →
      detectSymbolType symbol currency ≠ "bond") ∧
    detectSymbolType "BOND" "CNY" = "us_stock" ∧
    (∀ symbol currency : String, detectSymbolType symbol currency = "bond" →
      pyContains (pyUpper symbol) "BOND" = true ∧
      matchUpperAlpha (pyUpper symbol) = false) := by
  refine ⟨?_, ?_, by decide, ?_⟩
  · intro symbol currency hA hSH hSZ hCASH hAU hGOLD hHKD
    have hall : (pyUpper symbol).data.all isUpperAZ = true := by
      simp only [matchUpperAlpha, Bool.and_eq_true] at hA
      exact hA.2
    have hfix : pyUpper (pyUpper symbol) = pyUpper symbol := pyUpper_of_allAZ hall
    have hHKD' : (currency == "HKD") = false := by
      rw [beq_eq_false_iff_ne]
      exact hHKD
    have hCASH' : (pyUpper symbol == "CASH") = false := by
      rw [beq_eq_false_iff_ne]
      exact hCASH
    simp only [detectSymbolType, hfix, hSH, hSZ,
      matchUpperAlpha_sixDigits_false hA, matchUpperAlpha_hkPattern_false hA,
      hAU, hGOLD, hA, hHKD', hCASH', Bool.or_false, Bool.false_or, Bool.and_false,
      Bool.or_true, Bool.false_eq_true, if_false, if_true]
  · intro symbol currency hA
    simp only [detectSymbolType]
    repeat' split
    all_goals first | decide | simp_all
  · intro symbol currency hb
    revert hb
    simp only [detectSymbolType]
    repeat' split
    all_goals intro hb
    all_goals first | (exact absurd hb (by decide)) | simp_all [pyUpper_idem]

/-- Witness for C10: `IBM`/`CNY` satisfies all side conditions and classifies
as `us_stock`, and `BOND`/`CNY` classifies as `us_stock`, not `bond`. -/
theorem claim_classifier_us_stock_witness :
    detectSymbolType "IBM" "CNY" = "us_stock" ∧
    detectSymbolType "BOND" "CNY" = "us_stock" :=
  ⟨claim_classifier_us_stock.1 "IBM" "CNY" (by decide) (by decide) (by decide)
    (by decide) (by decide) (by decide) (by decide),
   claim_classifier_us_stock.2.2.1⟩

/-- The classifier is total: every input lands in one of the eight classes. -/
theorem detectSymbolType_mem (symbol currency : String) :
    detectSymbolType symbol currency ∈
      ["a_share", "fund", "hk_stock", "us_stock", "gold", "cash", "bond", "unknown"] := by
  simp only [detectSymbolType]
  repeat' split
  all_goals decide

/-- Short-circuit behaviour of `fetch_price` on a cache miss for the three
non-provider classes: fixed result, state returned untouched, no adapter
invoked. -/
theorem fetchPrice_shortcircuit (symbol currency asset_type : String) (now : ℤ)
    (env : String → FetchOutcome) (st : FetchState)
    (hmiss : getCachedPrice st.price_cache symbol currency asset_type now = none) :
    (detectSymbolType symbol currency = "bond" →
      fetchPrice symbol currency asset_type now env st =
        (⟨none, "债券价格暂不支持自动获取"⟩, st, [])) ∧
    (detectSymbolType symbol currency = "cash" →
      fetchPrice symbol currency asset_type now env st =
        (⟨some 1, "现金价格固定为 1.0"⟩, st, [])) ∧
    (detectSymbolType symbol currency = "unknown" →
      fetchPrice symbol currency asset_type now env st =
        (⟨none, "无法识别标的类型: " ++ symbol⟩, st, [])) := by
  refine ⟨?_, ?_, ?_⟩ <;> intro h <;> simp [fetchPrice, hmiss, h]

/-- Inversion for a served cache read: it comes from a stored entry that is
still within the TTL. -/
theorem getCachedPrice_some_inv {cache : List (String × CacheEntry)}
    {symbol currency asset_type : String} {now : ℤ} {pr : ℤ × String}
    (h : getCachedPrice cache symbol currency asset_type now = some pr) :
    ∃ e, mapLookup cache (cacheKey symbol currency asset_type) = some e ∧
      now - e.ts ≤ 30 ∧ pr = (e.price, e.source) := by
  revert h
  unfold getCachedPrice
  cases hm : mapLookup cache (cacheKey symbol currency asset_type) with
  | none => intro h; exact absurd h (by simp)
  | some e =>
    intro h
    have h' : (if now - e.ts ≤ cacheTTLSeconds then some (e.price, e.source) else none) =
        some pr := h
    by_cases hf : now - e.ts ≤ cacheTTLSeconds
    · rw [if_pos hf] at h'
      exact ⟨e, rfl, by simpa [cacheTTLSeconds] using hf, (Option.some.inj h').symm⟩
    · rw [if_neg hf] at h'
      exact absurd h' (by simp)

/-- Claim C1: on a cache miss for a provider-backed class, if every provider
before `p` in the chain is breaker-unavailable or fails and `p` is available
and returns price `v`, then `fetch_price` returns `v` with `p`'s success
message, a breaker success is recorded for `p` (its state is cleared), the
price is written to the cache under the call's key, and no provider after `p`
in the chain is ever invoked. -/
theorem claim_first_success_wins (symbol currency asset_type : String) (now : ℤ)
    (env : String → FetchOutcome) (st : FetchState)
    (pre : List String) (p : String) (post : List String) (v : ℤ) :
    detectSymbolType symbol currency ∈ providerClasses →
    getCachedPrice st.price_cache symbol currency asset_type now = none →
    chainFor (detectSymbolType symbol currency) = pre ++ p :: post →
    (∀ q ∈ pre, serviceAvailable st.service_state q now = false ∨
      env q = .noPrice ∨ ∃ m, env q = .exc m) →
    serviceAvailable st.service_state p now = true →
    env p = .price v →
    (fetchPrice symbol currency asset_type now env st).1 =
        ⟨some v, "价格获取成功 (来源: " ++ p ++ ")"⟩ ∧
    mapLookup (fetchPrice symbol currency asset_type now env st).2.1.price_cache
        (cacheKey symbol currency asset_type) = some ⟨v, now, p⟩ ∧
    mapLookup (fetchPrice symbol currency asset_type now env st).2.1.service_state
        p = none ∧
    ∀ q ∈ post, q ∉ (fetchPrice symbol currency asset_type now env st).2.2 := by
  intro hcls hmiss hchain hpre hav hp
  have hnd : (pre ++ p :: post).Nodup := hchain ▸ chainFor_nodup _
  rw [fetchPrice_eq_loop symbol currency asset_type now env st hcls hmiss, hchain]
  obtain ⟨c1, c2, c3, tr, htr, hnot⟩ :=
    fetchLoop_first_success symbol currency asset_type now env pre p post st [] [] v
      hnd hpre hav hp
  refine ⟨c1, c2, c3, ?_⟩
  intro q hq
  rw [htr]
  simpa using hnot q hq

/-- Witness for C1: for `AAPL`/`USD` with an empty state, Yahoo Finance fails,
Sina Finance returns 5; the call returns 5 from Sina Finance, caches it,
clears Sina Finance's breaker state, and never invokes Tencent Finance. -/
theorem claim_first_success_wins_witness :
    (fetchPrice "AAPL" "USD" "stock" 0
        (fun n => if n = "Sina Finance" then FetchOutcome.price 5 else FetchOutcome.noPrice)
        ⟨[], []⟩).1 = ⟨some 5, "价格获取成功 (来源: Sina Finance)"⟩ ∧
    mapLookup (fetchPrice "AAPL" "USD" "stock" 0
        (fun n => if n = "Sina Finance" then FetchOutcome.price 5 else FetchOutcome.noPrice)
        ⟨[], []⟩).2.1.price_cache (cacheKey "AAPL" "USD" "stock") =
      some ⟨5, 0, "Sina Finance"⟩ ∧
    mapLookup (fetchPrice "AAPL" "USD" "stock" 0
        (fun n => if n = "Sina Finance" then FetchOutcome.price 5 else FetchOutcome.noPrice)
        ⟨[], []⟩).2.1.service_state "Sina Finance" = none ∧
    "Tencent Finance" ∉ (fetchPrice "AAPL" "USD" "stock" 0
        (fun n => if n = "Sina Finance" then FetchOutcome.price 5 else FetchOutcome.noPrice)
        ⟨[], []⟩).2.2 := by
  have h := claim_first_success_wins "AAPL" "USD" "stock" 0
    (fun n => if n = "Sina Finance" then FetchOutcome.price 5 else FetchOutcome.noPrice)
    ⟨[], []⟩ ["Yahoo Finance"] "Sina Finance" ["Tencent Finance"] 5
    (by decide) (by decide) (by decide)
    (by
      intro q hq
      rcases List.mem_singleton.mp hq with rfl
      right; left; decide)
    (by decide) (by decide)
  exact ⟨h.1, h.2.1, h.2.2.1, h.2.2.2 "Tencent Finance" (by decide)⟩

/-- Claim C6: on a cache miss for a provider-backed class, if every provider
in the chain is breaker-unavailable or fails, `fetch_price` returns an absent
price, the diagnostic is the concatenation of one entry per provider in chain
order (skipped providers recorded as cooling down), and no cache entry is
written. -/
theorem claim_exhaustion (symbol currency asset_type : String) (now : ℤ)
    (env : String → FetchOutcome) (st : FetchState) :
    detectSymbolType symbol currency ∈ providerClasses →
    getCachedPrice st.price_cache symbol currency asset_type now = none →
    (∀ n ∈ chainFor (detectSymbolType symbol currency),
      serviceAvailable st.service_state n now = true →
      env n = .noPrice ∨ ∃ m, env n = .exc m) →
    (fetchPrice symbol currency asset_type now env st).1 =
        ⟨none, failMessage ((chainFor (detectSymbolType symbol currency)).map
          (diagEntry st.service_state env now))⟩ ∧
    (fetchPrice symbol currency asset_type now env st).2.1.price_cache =
      st.price_cache := by
  intro hcls hmiss hfail
  rw [fetchPrice_eq_loop symbol currency asset_type now env st hcls hmiss]
  have h := fetchLoop_exhaust symbol currency asset_type now env st.service_state
    (chainFor (detectSymbolType symbol currency)) st [] []
    (chainFor_nodup _) (fun n _ => rfl) hfail
  simpa using h

/-- Witness for C6: for `AAPL`/`USD` with Yahoo Finance cooling down and the
other two providers returning nothing, the call reports one diagnostic line
per provider and writes nothing to the cache. -/
theorem claim_exhaustion_witness :
    (fetchPrice "AAPL" "USD" "stock" 0 (fun _ => FetchOutcome.noPrice)
        ⟨[], [("Yahoo Finance", ⟨3, 0, 100⟩)]⟩).1 =
      ⟨none, "价格获取失败: Yahoo Finance: 熔断冷却中; Sina Finance: 未获取到数据; Tencent Finance: 未获取到数据"⟩ ∧
    (fetchPrice "AAPL" "USD" "stock" 0 (fun _ => FetchOutcome.noPrice)
        ⟨[], [("Yahoo Finance", ⟨3, 0, 100⟩)]⟩).2.1.price_cache = [] := by
  have h := claim_exhaustion "AAPL" "USD" "stock" 0 (fun _ => FetchOutcome.noPrice)
    ⟨[], [("Yahoo Finance", ⟨3, 0, 100⟩)]⟩
    (by decide) (by decide) (fun n _ _ => Or.inl rfl)
  exact ⟨h.1.trans (by decide), h.2⟩

/-- Claim C7: `fetch_price` is a total function of the adapter outcomes — an
adapter that raises is modelled as the `exc` outcome, mirroring the source's
catch-all `except`, so no exception crosses the `quote` boundary — and an
exception outcome is handled exactly like a "no price" outcome: same returned
price, same final cache and breaker state, same set of invoked adapters (the
chain continues with the next provider); only the diagnostic wording differs. -/
theorem claim_exception_safety (symbol currency asset_type : String) (now : ℤ)
    (env : String → FetchOutcome) (st : FetchState) (n : String) (m : String) :
    (fetchPrice symbol currency asset_type now
        (fun k => if k = n then FetchOutcome.exc m else env k) st).1.price =
      (fetchPrice symbol currency asset_type now
        (fun k => if k = n then FetchOutcome.noPrice else env k) st).1.price ∧
    (fetchPrice symbol currency asset_type now
        (fun k => if k = n then FetchOutcome.exc m else env k) st).2 =
      (fetchPrice symbol currency asset_type now
        (fun k => if k = n then FetchOutcome.noPrice else env k) st).2 := by
  cases hc : getCachedPrice st.price_cache symbol currency asset_type now with
  | some pr =>
    obtain ⟨a, b⟩ := pr
    constructor <;> simp only [fetchPrice, hc]
  | none =>
    have htot := detectSymbolType_mem symbol currency
    simp only [List.mem_cons, List.not_mem_nil, or_false] at htot
    rcases htot with h | h | h | h | h | h | h | h
    case inl | inr.inl | inr.inr.inl | inr.inr.inr.inl | inr.inr.inr.inr.inl =>
      have hcls : detectSymbolType symbol currency ∈ providerClasses := by
        rw [h]; decide
      rw [fetchPrice_eq_loop symbol currency asset_type now _ st hcls hc,
          fetchPrice_eq_loop symbol currency asset_type now _ st hcls hc]
      exact fetchLoop_exc_eq_noPrice symbol currency asset_type now env n m
        (chainFor (detectSymbolType symbol currency)) st [] [] []
    all_goals constructor <;> simp [fetchPrice, hc, h]

/-- Counterexample to C8 as stated: the success check of `fetch_price` is only
`price is not None`, so an adapter returning `-5` has that value cached and
returned; the cache does hold a non-positive price. -/
theorem claim_cache_positive_counterexample :
    mapLookup (fetchPrice "AAPL" "USD" "stock" 0 (fun _ => FetchOutcome.price (-5))
        ⟨[], []⟩).2.1.price_cache (cacheKey "AAPL" "USD" "stock") =
      some ⟨-5, 0, "Yahoo Finance"⟩ ∧
    (fetchPrice "AAPL" "USD" "stock" 0 (fun _ => FetchOutcome.price (-5))
        ⟨[], []⟩).1.price = some (-5) ∧
    ¬ (0 < (-5 : ℤ)) := by
  refine ⟨by decide, by decide, by decide⟩

/-- Cache-evolution across one `fetch_price` call: either untouched, or one
returned provider price is written under the call's key. -/
theorem fetchPrice_cache_writes (symbol currency asset_type : String)
    (now : ℤ) (env : String → FetchOutcome) (st : FetchState) :
    (fetchPrice symbol currency asset_type now env st).2.1.price_cache =
        st.price_cache ∨
    ∃ p v, env p = FetchOutcome.price v ∧
      (fetchPrice symbol currency asset_type now env st).1.price = some v ∧
      (fetchPrice symbol currency asset_type now env st).2.1.price_cache =
        setCachedPrice st.price_cache symbol currency asset_type v p now := by
  cases hc : getCachedPrice st.price_cache symbol currency asset_type now with
  | some pr =>
    obtain ⟨a, b⟩ := pr
    left
    simp only [fetchPrice, hc]
  | none =>
    have htot := detectSymbolType_mem symbol currency
    simp only [List.mem_cons, List.not_mem_nil, or_false] at htot
    rcases htot with h | h | h | h | h | h | h | h
    case inl | inr.inl | inr.inr.inl | inr.inr.inr.inl | inr.inr.inr.inr.inl =>
      have hcls : detectSymbolType symbol currency ∈ providerClasses := by
        rw [h]; decide
      rw [fetchPrice_eq_loop symbol currency asset_type now env st hcls hc]
      rcases fetchLoop_cache_evolution symbol currency asset_type now env
          (chainFor (detectSymbolType symbol currency)) st [] [] with
        hsame | ⟨p, v, _, henv, h1, h2⟩
      · left; exact hsame
      · right; exact ⟨p, v, henv, h1, h2⟩
    all_goals left
    all_goals simp [fetchPrice, hc, h]

/-- Claim C8 as amended: the cache is only ever changed by storing, under the
call's key, a price value that some provider actually returned in this call
(and that `fetch_price` then reports); failure outcomes (`noPrice`, `exc`) are
never written.  Positivity of the stored value is not checked by the code. -/
theorem claim_cache_stores_only_returned (symbol currency asset_type : String)
    (now : ℤ) (env : String → FetchOutcome) (st : FetchState) :
    (fetchPrice symbol currency asset_type now env st).2.1.price_cache =
        st.price_cache ∨
    ∃ p v, env p = FetchOutcome.price v ∧
      (fetchPrice symbol currency asset_type now env st).1.price = some v ∧
      (fetchPrice symbol currency asset_type now env st).2.1.price_cache =
        setCachedPrice st.price_cache symbol currency asset_type v p now :=
  fetchPrice_cache_writes symbol currency asset_type now env st

/-- Counterexample to C4 as stated: the cache key uses the caller-supplied
asset-type hint, not the classified instrument class.  A successful fetch with
hint `stock` is stored under `AAPL|USD|stock`, the class-based key
`AAPL|USD|us_stock` stays absent, and an immediate second call with the same
symbol and currency but hint `etf` misses the cache and returns its own
provider's different price. -/
theorem claim_cache_key_counterexample :
    detectSymbolType "AAPL" "USD" = "us_stock" ∧
    mapLookup (fetchPrice "AAPL" "USD" "stock" 0 (fun _ => FetchOutcome.price 5)
        ⟨[], []⟩).2.1.price_cache "AAPL|USD|stock" = some ⟨5, 0, "Yahoo Finance"⟩ ∧
    mapLookup (fetchPrice "AAPL" "USD" "stock" 0 (fun _ => FetchOutcome.price 5)
        ⟨[], []⟩).2.1.price_cache "AAPL|USD|us_stock" = none ∧
    (fetchPrice "AAPL" "USD" "etf" 0 (fun _ => FetchOutcome.price 7)
        (fetchPrice "AAPL" "USD" "stock" 0 (fun _ => FetchOutcome.price 5)
          ⟨[], []⟩).2.1).1.price = some 7 := by
  refine ⟨by decide, by decide, by decide, by decide⟩

/-- Claim C4 as amended: cache reads and writes of `fetch_price` are keyed by
(uppercased symbol, currency, caller-supplied asset-type hint): a fresh entry
under that key is returned verbatim with the cached diagnostic and no provider
contacted, and any write goes to exactly that key; two calls with the same
symbol and currency address the same entry only when they also pass the same
hint. -/
theorem claim_cache_key_uses_hint (symbol currency asset_type : String) (now : ℤ)
    (env : String → FetchOutcome) (st : FetchState) :
    (∀ e, mapLookup st.price_cache (cacheKey symbol currency asset_type) = some e →
      now - e.ts ≤ 30 →
      fetchPrice symbol currency asset_type now env st =
        (⟨some e.price, "价格获取成功 (缓存, 来源: " ++ e.source ++ ")"⟩, st, [])) ∧
    ((fetchPrice symbol currency asset_type now env st).2.1.price_cache =
        st.price_cache ∨
      ∃ p v, (fetchPrice symbol currency asset_type now env st).2.1.price_cache =
        mapInsert st.price_cache (cacheKey symbol currency asset_type) ⟨v, now, p⟩) := by
  constructor
  · intro e hhit hfresh
    exact fetchPrice_cache_hit symbol currency asset_type now env st e hhit hfresh
  · rcases fetchPrice_cache_writes symbol currency asset_type now env st with
      hsame | ⟨p, v, _, _, h2⟩
    · left; exact hsame
    · right; exact ⟨p, v, h2⟩

/-- Witness for the amended C4: a fresh entry stored under hint `etf` is
served to a call using hint `etf`, untouched state, no adapter invoked. -/
theorem claim_cache_key_uses_hint_witness :
    fetchPrice "AAPL" "USD" "etf" 10 (fun _ => FetchOutcome.noPrice)
        ⟨[("AAPL|USD|etf", ⟨5, 0, "Yahoo Finance"⟩)], []⟩ =
      (⟨some 5, "价格获取成功 (缓存, 来源: Yahoo Finance)"⟩,
       ⟨[("AAPL|USD|etf", ⟨5, 0, "Yahoo Finance"⟩)], []⟩, []) :=
  (claim_cache_key_uses_hint "AAPL" "USD" "etf" 10 (fun _ => FetchOutcome.noPrice)
    ⟨[("AAPL|USD|etf", ⟨5, 0, "Yahoo Finance"⟩)], []⟩).1
    ⟨5, 0, "Yahoo Finance"⟩ (by decide) (by decide)

/-- Counterexample to C5 as stated: the cache lookup precedes the
cash/bond/unknown short-circuit, and the `"|"`-joined cache key is not
injective in its components, so a reachable state makes a cash-classified call
return a cached provider price instead of the fixed 1.0.  A first call with
symbol `CASH|X`, currency `USD` (classified `us_stock`) caches 5 under the key
`CASH|X|USD|h`; a second call with symbol `CASH`, currency `X|USD` — which
classifies as `cash` — computes the same key, hits the cache, and returns 5. -/
theorem claim_shortcircuit_counterexample :
    detectSymbolType "CASH|X" "USD" = "us_stock" ∧
    detectSymbolType "CASH" "X|USD" = "cash" ∧
    cacheKey "CASH" "X|USD" "h" = cacheKey "CASH|X" "USD" "h" ∧
    (fetchPrice "CASH" "X|USD" "h" 0 (fun _ => FetchOutcome.noPrice)
        (fetchPrice "CASH|X" "USD" "h" 0 (fun _ => FetchOutcome.price 5)
          ⟨[], []⟩).2.1).1.price = some 5 ∧
    some (5 : ℤ) ≠ some (1 : ℤ) := by
  refine ⟨by decide, by decide, by decide, by decide, by decide⟩

/-- Claim C5 as amended: a call whose symbol and currency classify as cash,
bond, or unknown and whose cache lookup (keyed by symbol, currency and the
caller's asset-type hint) misses, returns the fixed short-circuit result —
price 1.0 for cash, absent price with the distinguishing diagnostic for bond
and unknown — invokes no provider adapter, and returns both the cache map and
the breaker map exactly unchanged. -/
theorem claim_shortcircuit_amended (symbol currency asset_type : String)
    (now : ℤ) (env : String → FetchOutcome) (st : FetchState)
    (hmiss : getCachedPrice st.price_cache symbol currency asset_type now = none) :
    (detectSymbolType symbol currency = "bond" →
      fetchPrice symbol currency asset_type now env st =
        (⟨none, "债券价格暂不支持自动获取"⟩, st, [])) ∧
    (detectSymbolType symbol currency = "cash" →
      fetchPrice symbol currency asset_type now env st =
        (⟨some 1, "现金价格固定为 1.0"⟩, st, [])) ∧
    (detectSymbolType symbol currency = "unknown" →
      fetchPrice symbol currency asset_type now env st =
        (⟨none, "无法识别标的类型: " ++ symbol⟩, st, [])) :=
  fetchPrice_shortcircuit symbol currency asset_type now env st hmiss

/-- Witness for the amended C5: `CASH`/`CNY` on an empty state returns the
fixed 1.0 with untouched state and no adapter invoked. -/
theorem claim_shortcircuit_amended_witness :
    fetchPrice "CASH" "CNY" "stock" 0 (fun _ => FetchOutcome.noPrice) ⟨[], []⟩ =
      (⟨some 1, "现金价格固定为 1.0"⟩, ⟨[], []⟩, []) :=
  (claim_shortcircuit_amended "CASH" "CNY" "stock" 0 (fun _ => FetchOutcome.noPrice)
    ⟨[], []⟩ (by decide)).2.1 (by decide)

/-- Counterexample to C9 as stated: `fetch_price` performs no currency
validation.  `EUR` is outside the enumerated set {CNY, USD, HKD}, yet the call
proceeds to cache lookup and provider fetching exactly as if it were valid —
all three `us_stock` providers are invoked. -/
theorem claim_currency_validation_counterexample :
    ("EUR" ∈ ["CNY", "USD", "HKD"] → False) ∧
    (fetchPrice "AAPL" "EUR" "stock" 0 (fun _ => FetchOutcome.noPrice)
        ⟨[], []⟩).2.2 = ["Yahoo Finance", "Sina Finance", "Tencent Finance"] := by
  refine ⟨by decide, by decide⟩

/-- Claim C9 as amended: `fetch_price` validates nothing up front; symbol
normalization (uppercasing) happens inside the cache key and the classifier,
and every call — with any currency string whatsoever — takes exactly one of
three paths: a fresh cache hit returned verbatim, a cash/bond/unknown
short-circuit with untouched state and no adapter invoked, or the provider
chain walk for the classified provider-backed class. -/
theorem claim_no_currency_validation (symbol currency asset_type : String)
    (now : ℤ) (env : String → FetchOutcome) (st : FetchState) :
    (∃ e, mapLookup st.price_cache (cacheKey symbol currency asset_type) = some e ∧
      now - e.ts ≤ 30 ∧
      fetchPrice symbol currency asset_type now env st =
        (⟨some e.price, "价格获取成功 (缓存, 来源: " ++ e.source ++ ")"⟩, st, [])) ∨
    (detectSymbolType symbol currency ∈ ["bond", "cash", "unknown"] ∧
      (fetchPrice symbol currency asset_type now env st).2 = (st, [])) ∨
    (detectSymbolType symbol currency ∈ providerClasses ∧
      fetchPrice symbol currency asset_type now env st =
        fetchLoop symbol currency asset_type now env
          (chainFor (detectSymbolType symbol currency)) st [] []) := by
  cases hc : getCachedPrice st.price_cache symbol currency asset_type now with
  | some pr =>
    left
    obtain ⟨e, hlook, hfresh, hpr⟩ := getCachedPrice_some_inv hc
    refine ⟨e, hlook, hfresh, ?_⟩
    subst hpr
    simp only [fetchPrice, hc]
  | none =>
    right
    have htot := detectSymbolType_mem symbol currency
    simp only [List.mem_cons, List.not_mem_nil, or_false] at htot
    rcases htot with h | h | h | h | h | h | h | h
    case inl | inr.inl | inr.inr.inl | inr.inr.inr.inl | inr.inr.inr.inr.inl =>
      right
      have hcls : detectSymbolType symbol currency ∈ providerClasses := by
        rw [h]; decide
      exact ⟨hcls, fetchPrice_eq_loop symbol currency asset_type now env st hcls hc⟩
    all_goals left
    all_goals refine ⟨by rw [h]; decide, ?_⟩
    all_goals simp [fetchPrice, hc, h]

end InvestLog
